import Mathlib

/-!
Verification of the Medical_RAG repository (a medical lab-report ingestion
pipeline: src/1app.py, src/medical_db.py, src/medical_extractor.py,
src/pages/1_Problems.py) against its natural-language specification.

The Python code is shallowly embedded: Python strings are Lean `String`
(a structure wrapping `List Char` in this toolchain), Python floats that
arise from parsing decimal literals are modelled as exact rationals
(the `PyRat` structure below), fallible steps
return `Option`, and uncaught Python exceptions are modelled as an
explicit `Except` error or, where the surrounding code catches them and
returns a sentinel, directly as that sentinel.  String helpers
(`lower`, `strip`, `replace`, `split`, `in`, `startswith`) are modelled
over `List Char` with ASCII case semantics.
-/

/-- Association-list lookup modelling Python `d[k]` / `k in d`. -/
def dictLookup {K V : Type} [DecidableEq K] (m : List (K × V)) (k : K) : Option V :=
  (m.find? (fun p => decide (p.1 = k))).map (fun p => p.2)

/-- Association-list insert modelling Python `d[k] = v` (the binding
for k is replaced). -/
def dictInsert {K V : Type} [DecidableEq K] (k : K) (v : V) (m : List (K × V)) : List (K × V) :=
  (k, v) :: m.filter (fun p => !(decide (p.1 = k)))

/-- The upper-to-lower table of the basic latin letters. -/
def lowerTable : List (Char × Char) :=
  [('A', 'a'), ('B', 'b'), ('C', 'c'), ('D', 'd'), ('E', 'e'), ('F', 'f'),
   ('G', 'g'), ('H', 'h'), ('I', 'i'), ('J', 'j'), ('K', 'k'), ('L', 'l'),
   ('M', 'm'), ('N', 'n'), ('O', 'o'), ('P', 'p'), ('Q', 'q'), ('R', 'r'),
   ('S', 's'), ('T', 't'), ('U', 'u'), ('V', 'v'), ('W', 'w'), ('X', 'x'),
   ('Y', 'y'), ('Z', 'z')]

/-- ASCII lower-casing of one character, modelling Python str.lower for
the ASCII letters actually used by this code base. -/
def pyLowerChar (c : Char) : Char :=
  (dictLookup lowerTable c).getD c

/-- Python str.lower over a whole string (ASCII model). -/
def pyLower (s : String) : String :=
  String.mk (s.data.map pyLowerChar)

/-- Drop leading and trailing whitespace from a character list,
modelling Python str.strip(). -/
def listTrim (cs : List Char) : List Char :=
  ((cs.dropWhile Char.isWhitespace).reverse.dropWhile Char.isWhitespace).reverse

/-- Python str.strip(). -/
def pyStrip (s : String) : String :=
  String.mk (listTrim s.data)

/-- Worker for replaceAll: the fuel bounds the number of steps and is
kept at least the list length, so it never runs out; it makes the
recursion structural (each step consumes one fuel and at least one
list element). -/
def replaceAllGo (pat rep : List Char) : Nat → List Char → List Char
  | _, [] => []
  | 0, cs => cs
  | fuel + 1, c :: cs =>
    if pat ≠ [] ∧ pat.isPrefixOf (c :: cs) then
      rep ++ replaceAllGo pat rep fuel (cs.drop (pat.length - 1))
    else
      c :: replaceAllGo pat rep fuel cs

/-- Replace every (leftmost non-overlapping) occurrence of a non-empty
pattern in a character list, modelling Python str.replace(pat, rep). -/
def replaceAll (pat rep cs : List Char) : List Char :=
  replaceAllGo pat rep cs.length cs

/-- Python str.replace(pat, "") — removal of every occurrence. -/
def removeAll (pat : List Char) (cs : List Char) : List Char :=
  replaceAll pat [] cs

/-- Python s.replace(pat, ""). -/
def pyRemove (s pat : String) : String :=
  String.mk (removeAll pat.data s.data)

/-- Python s.replace(pat, rep). -/
def pyReplace (s pat rep : String) : String :=
  String.mk (replaceAll pat.data rep.data s.data)

/-- Substring test over character lists, modelling Python `needle in hay`. -/
def listContainsSub (needle : List Char) : List Char → Bool
  | [] => needle.isEmpty
  | c :: cs => needle.isPrefixOf (c :: cs) || listContainsSub needle cs

/-- Python `needle in hay` on strings. -/
def strContains (hay needle : String) : Bool :=
  listContainsSub needle.data hay.data

/-- Python hay.startswith(needle). -/
def strStarts (hay needle : String) : Bool :=
  needle.data.isPrefixOf hay.data

/-- Split a character list at every dash, modelling Python
rng.split("-") (the source only ever splits on the one-character
separator "-"). -/
def splitDashCore : List Char → List (List Char)
  | [] => [[]]
  | c :: cs =>
    if c = '-' then [] :: splitDashCore cs
    else
      match splitDashCore cs with
      | [] => [[c]]
      | h :: t => (c :: h) :: t

/-- Numeric value of a digit list, most significant digit first. -/
def digitsVal (ds : List Char) : Nat :=
  List.foldl (fun n c => 10 * n + (c.toNat - 48)) 0 ds

/-- Characters a successfully float-parsed (trimmed, lower-cased)
string may consist of. -/
def floatChar (c : Char) : Bool :=
  c.isDigit || c = '+' || c = '-' || c = '.' || c = 'e'

/-- Exact rational numbers as parsed from decimal literals: an integer
numerator over a positive power-of-ten denominator, kept unreduced so
that every operation and comparison reduces in the kernel.  Comparisons
are by cross-multiplication, which agrees with the real-number order
since every denominator produced here is positive. -/
structure PyRat where
  num : Int
  den : Nat
deriving DecidableEq, Repr

instance : LT PyRat :=
  ⟨fun a b => a.num * (b.den : Int) < b.num * (a.den : Int)⟩

instance : LE PyRat :=
  ⟨fun a b => a.num * (b.den : Int) ≤ b.num * (a.den : Int)⟩

instance (a b : PyRat) : Decidable (a < b) :=
  Int.decLt _ _

instance (a b : PyRat) : Decidable (a ≤ b) :=
  Int.decLe _ _

/-- Negation. -/
def PyRat.neg (a : PyRat) : PyRat :=
  { num := -a.num, den := a.den }

/-- Multiplication by an integer power of ten, used for the exponent
part of a float literal. -/
def PyRat.mulPow10 (a : PyRat) (z : Int) : PyRat :=
  match z with
  | Int.ofNat k => { num := a.num * (10 : Int) ^ k, den := a.den }
  | Int.negSucc k => { num := a.num, den := a.den * 10 ^ (k + 1) }

/-- Exponent digits after an optional sign: all characters must be
digits and at least one digit must be present. -/
def pyExpDigits (cs : List Char) : Option Int :=
  if cs ≠ [] ∧ cs.all Char.isDigit then some (digitsVal cs : Int) else none

/-- Exponent part of a float literal (after the letter e): an optional
sign followed by digits. -/
def pyExp : List Char → Option Int
  | [] => pyExpDigits []
  | c :: r =>
    if c = '+' then pyExpDigits r
    else if c = '-' then (pyExpDigits r).map Neg.neg
    else pyExpDigits (c :: r)

/-- End of a float literal after the mantissa: nothing, or the letter e
followed by an exponent. -/
def pyFloatTail (mant : PyRat) : List Char → Option PyRat
  | [] => some mant
  | c :: r =>
    if c = 'e' then (pyExp r).map (fun z => mant.mulPow10 z)
    else none

/-- Mantissa and what follows, given the leading digits ip and the
remainder rest1 of the literal: an optional point with fraction digits,
then the tail; at least one mantissa digit is required. -/
def pyFloatMantissa (ip : List Char) : List Char → Option PyRat
  | [] => if ip.isEmpty then none else pyFloatTail { num := (digitsVal ip : Int), den := 1 } []
  | c :: r =>
    if c = '.' then
      if ip.isEmpty && (r.takeWhile Char.isDigit).isEmpty then none
      else
        pyFloatTail
          { num := (digitsVal ip : Int) * (10 : Int) ^ (r.takeWhile Char.isDigit).length +
              (digitsVal (r.takeWhile Char.isDigit) : Int)
            den := 10 ^ (r.takeWhile Char.isDigit).length }
          (r.dropWhile Char.isDigit)
    else if ip.isEmpty then none
    else pyFloatTail { num := (digitsVal ip : Int), den := 1 } (c :: r)

/-- Unsigned decimal float literal: digits, optional point and fraction
digits, optional exponent; at least one mantissa digit required and no
trailing characters allowed. -/
def pyFloatUnsigned (cs : List Char) : Option PyRat :=
  pyFloatMantissa (cs.takeWhile Char.isDigit) (cs.dropWhile Char.isDigit)

/-- Signed float literal body. -/
def pyFloatCore : List Char → Option PyRat
  | [] => pyFloatUnsigned []
  | c :: r =>
    if c = '+' then pyFloatUnsigned r
    else if c = '-' then (pyFloatUnsigned r).map PyRat.neg
    else pyFloatUnsigned (c :: r)

/-- Model of Python float(s) for finite decimal literals: surrounding
whitespace is ignored and the exponent letter is case-insensitive.
(The special float texts inf/infinity/nan and digit underscores are not
modelled; none of the claims involve them.) -/
def pyFloat (s : String) : Option PyRat :=
  pyFloatCore (listTrim (s.data.map pyLowerChar))

/-- Python `a or b` for an optional string against a string default:
the first operand is kept only when it is truthy (present and
non-empty). -/
def pyOrStr (a : Option String) (b : String) : String :=
  match a with
  | none => b
  | some s => if s = "" then b else s

/-- Truthiness of an optional string field, as in `if t.get(k):` —
`none` both for an absent field and for an empty string. -/
def truthyOpt (a : Option String) : Option String :=
  match a with
  | some "" => none
  | x => x

/-! ## src/1app.py — TestClassifier (classify_test_type, extract_panel) -/

/-- classify_test_type from src/1app.py lines 44-48. -/
def classify_test_type (test_name : String) (unit : String) : String :=
  let name := pyLower test_name
  if strContains name "/" || decide (pyLower unit = "ratio") then "ratio"
  else "concentration"

/-- extract_panel from src/1app.py lines 51-63. -/
def extract_panel (test_name : String) : String :=
  let n := pyLower test_name
  if List.any ["thyroid", "tsh", "t3", "t4"] (fun x => strContains n x) then "thyroid"
  else if List.any ["cholesterol", "triglyceride", "hdl", "ldl", "vldl", "lipid"]
      (fun x => strContains n x) then "lipid"
  else if strContains n "bilirubin" || strContains n "liver" then "liver"
  else "unknown"

/-! ## src/1app.py — IdentityResolver -/

/-- One row of the patient vocabulary as built by
get_existing_tests_for_patient (src/1app.py lines 113-121). -/
structure ExistingTest where
  name : String
  unit : String
  type : String
  panel : String
deriving DecidableEq, Repr

/-- Annotation of a persisted (test_name, unit) pair with its structural
signature, as in src/1app.py lines 113-121. -/
def existingOf (p : String × String) : ExistingTest :=
  { name := p.1
    unit := p.2
    type := classify_test_type p.1 p.2
    panel := extract_panel p.1 }

/-- get_existing_tests_for_patient restricted to its pure part: the
distinct (test_name, unit) pairs come from the store, each annotated
with its TestClassifier signature. -/
def get_existing_tests (pairs : List (String × String)) : List ExistingTest :=
  pairs.map existingOf

/-- Parsed matcher response, modelling the JSON object
the match call is expected to return.  A missing "match" key is
modelled as the empty string (the code treats both alike via
truthiness) and a missing "confidence" key as 0 (the code defaults it
to 0). -/
structure MatchOut where
  matchName : String
  confidence : PyRat
deriving DecidableEq, Repr

/-- ai_match_test_name from src/1app.py lines 124-169.  The LLM call is
an external collaborator, so the transport-and-parse outcome is passed
in as an oracle: `none` models a failed request or a response that does
not parse (the code returns None from the except branch), `some out`
models a successfully parsed structured response. -/
def ai_match_test_name (oracle : Option MatchOut) (existing : List ExistingTest) : Option String :=
  if existing.isEmpty then none
  else
    match oracle with
    | none => none
    | some out =>
      if out.matchName ≠ "" ∧ out.matchName ≠ "no_match" ∧
          { num := 9, den := 10 : PyRat } ≤ out.confidence then
        some out.matchName
      else none

/-- The new-test record built for one extracted observation in the
identity-resolution loop (src/1app.py lines 233-238). -/
def newTestOf (tname tunit : String) : ExistingTest :=
  { name := tname
    unit := tunit
    type := classify_test_type tname tunit
    panel := extract_panel tname }

/-- The candidate pre-filter of the identity-resolution loop
(src/1app.py lines 240-245). -/
def candidate_filter (nt : ExistingTest) (existing : List ExistingTest) : List ExistingTest :=
  existing.filter (fun et =>
    decide (et.type = nt.type) && decide (et.panel = nt.panel) &&
      decide (pyLower et.unit = pyLower nt.unit))

/-- One iteration of the identity-resolution loop (src/1app.py lines
232-249): build the new-test record, filter the vocabulary, call the
matcher, and rewrite the name only when the matcher result is truthy. -/
def resolve_step (oracle : Option MatchOut) (existing : List ExistingTest)
    (tname tunit : String) : String :=
  let nt := newTestOf tname tunit
  let cands := candidate_filter nt existing
  match ai_match_test_name oracle cands with
  | some m => if m = "" then tname else m
  | none => tname

/-! ## src/1app.py — PageMerger (range cache merge loop, lines 204-227) -/

/-- One extracted test observation, modelling the dicts produced by the
extractor and consumed by the merge loop and the bulk insert. -/
structure TestDict where
  test_name : Option String
  test_context : Option String
  value : Option String
  unit : Option String
  reference_range : Option String
  normal_range : Option String
  canonical_id : Option String
deriving DecidableEq, Repr

/-- The range-cache key of one observation:
((t["test_name"] or "").lower(), (t.get("unit") or "").lower()). -/
def keyOf (t : TestDict) : String × String :=
  (pyLower (t.test_name.getD ""), pyLower (t.unit.getD ""))

/-- The per-observation body of the merge loop (src/1app.py lines
215-220): an extractor-supplied truthy reference_range is written to
the cache; otherwise a recovered range for the key, when present, is
written to the cache. -/
def mergeObs (cache : List ((String × String) × String))
    (recovered : List ((String × String) × String)) (t : TestDict) :
    List ((String × String) × String) :=
  let key := keyOf t
  match truthyOpt t.reference_range with
  | some r => dictInsert key r cache
  | none =>
    match dictLookup recovered key with
    | some r => dictInsert key r cache
    | none => cache

/-- The document's observations in processing order, each paired with
the regex-recovery output of its own page (the nested page/observation
loops of src/1app.py lines 207-222, flattened). -/
def obsStream (pages : List (List TestDict × List ((String × String) × String))) :
    List (TestDict × List ((String × String) × String)) :=
  pages.flatMap (fun p => p.1.map (fun t => (t, p.2)))

/-- The document-wide range cache after all pages are processed. -/
def buildCache (pages : List (List TestDict × List ((String × String) × String))) :
    List ((String × String) × String) :=
  List.foldl (fun c tr => mergeObs c tr.2 tr.1) [] (obsStream pages)

/-- all_tests: every observation of the document in page order
(src/1app.py line 222). -/
def allTests (pages : List (List TestDict × List ((String × String) × String))) :
    List TestDict :=
  pages.flatMap (fun p => p.1)

/-- The second pass over one observation (src/1app.py lines 224-227):
an observation with no truthy reference_range is filled from the cache
entry for its key, when present. -/
def fillObs (cache : List ((String × String) × String)) (t : TestDict) : TestDict :=
  match truthyOpt t.reference_range, dictLookup cache (keyOf t) with
  | none, some r => { t with reference_range := some r }
  | _, _ => t

/-- The full PageMerger result for a document: the second pass applied
to every collected observation using the final range cache. -/
def mergeDocument (pages : List (List TestDict × List ((String × String) × String))) :
    List TestDict :=
  (allTests pages).map (fillObs (buildCache pages))

/-- A concrete observation carrying an extractor-supplied
(authoritative) reference range, used in witnesses and
counterexamples. -/
def tshAuthObs : TestDict :=
  { test_name := some "tsh", test_context := none, value := some "4.5", unit := some "",
    reference_range := some "0.4-4.5", normal_range := none, canonical_id := none }

/-- The same observation without a reference range. -/
def tshPlainObs : TestDict :=
  { test_name := some "tsh", test_context := none, value := some "4.5", unit := some "",
    reference_range := none, normal_range := none, canonical_id := none }

/-- A two-page document: page one extracts the authoritative range,
page two extracts the same test without a range while its regex
recovery found a different range for the same key. -/
def samplePages : List (List TestDict × List ((String × String) × String)) :=
  [([tshAuthObs], []), ([tshPlainObs], [(("tsh", ""), "9-99")])]

/-! ## src/medical_db.py — insert_test_results (lines 126-161) -/

/-- One persisted test_results row. -/
structure TRRow where
  canonical_id : Option String
  test_name : String
  test_context : String
  value : String
  unit : String
  normal_range : String
deriving DecidableEq, Repr

/-- The row built from one input dict by insert_test_results
(src/medical_db.py lines 130-158): name and context are stripped and
lower-cased, value and unit are stripped, normal_range is the first
truthy of reference_range and normal_range, stripped. -/
def rowOf (t : TestDict) : TRRow :=
  { canonical_id := t.canonical_id
    test_name := pyLower (pyStrip (t.test_name.getD ""))
    test_context := pyLower (pyStrip (t.test_context.getD ""))
    value := pyStrip (t.value.getD "")
    unit := pyStrip (t.unit.getD "")
    normal_range := pyStrip (pyOrStr t.reference_range (pyOrStr t.normal_range "")) }

/-- insert_test_results from src/medical_db.py lines 126-161: for each
input dict the normalized fields are computed and the row is skipped
when the processed test_name or value is empty. -/
def insert_test_results : List TestDict → List TRRow
  | [] => []
  | t :: ts =>
    let test_name := pyLower (pyStrip (t.test_name.getD ""))
    let value := pyStrip (t.value.getD "")
    if test_name = "" ∨ value = "" then insert_test_results ts
    else rowOf t :: insert_test_results ts

/-- The predicate of claim C7 over one input entry: stripped test_name
and stripped value are both non-empty. -/
def keepObs (t : TestDict) : Bool :=
  decide (pyStrip (t.test_name.getD "") ≠ "") && decide (pyStrip (t.value.getD "") ≠ "")

/-- A concrete batch entry whose processed fields are all non-empty,
used in witnesses. -/
def sampleKeptObs : TestDict :=
  { test_name := some " Total Cholesterol ", test_context := some " Lipid Profile ",
    value := some " 190 ", unit := some " mg/dL ", reference_range := some "",
    normal_range := some " 0-200 ", canonical_id := none }

/-- A concrete batch entry with an empty (whitespace-only) value, used
in witnesses. -/
def sampleEmptyValueObs : TestDict :=
  { test_name := some "x", test_context := none, value := some "  ", unit := none,
    reference_range := none, normal_range := none, canonical_id := none }

/-! ## src/medical_db.py — explanation cache (lines 196-233) -/

/-- One row of the test_explanations table; the triple
(test_name, test_context, abnormal_type) is its primary key. -/
structure ExpRow where
  test_name : String
  test_context : String
  abnormal_type : String
  explanation : String
deriving DecidableEq, Repr

/-- The WHERE / primary-key comparison used by both get and
INSERT OR REPLACE: test_name and test_context are compared against
their lower-cased query values, abnormal_type is compared verbatim. -/
def expRowMatches (n c a : String) (r : ExpRow) : Bool :=
  decide (r.test_name = pyLower n) && decide (r.test_context = pyLower c) &&
    decide (r.abnormal_type = a)

/-- get_test_explanation from src/medical_db.py lines 196-210. -/
def get_test_explanation (db : List ExpRow) (n c a : String) : Option String :=
  (db.find? (expRowMatches n c a)).map (fun r => r.explanation)

/-- save_test_explanation from src/medical_db.py lines 213-226:
INSERT OR REPLACE on the primary-key triple removes any row with the
same (lower-cased name, lower-cased context, verbatim abnormal_type)
key and stores the new row. -/
def save_test_explanation (db : List ExpRow) (n c a e : String) : List ExpRow :=
  { test_name := pyLower n
    test_context := pyLower c
    abnormal_type := a
    explanation := e } :: db.filter (fun r => !(expRowMatches n c a r))

/-- clear_test_explanations from src/medical_db.py lines 229-233. -/
def clear_test_explanations (_db : List ExpRow) : List ExpRow := []

/-! ## src/pages/1_Problems.py — AbnormalityDetector (lines 33-70) -/

/-- parse_value from src/pages/1_Problems.py lines 33-39:
float(str(value).replace("H", "").replace("L", "").strip()), with any
failure (missing value or float error) giving None. -/
def parse_value (value : Option String) : Option PyRat :=
  match value with
  | none => none
  | some s => pyFloat (pyStrip (pyRemove (pyRemove s "H") "L"))

/-- The value of claim C6's own description of the parser: strip
surrounding whitespace and trailing flag letters H/L only, then parse;
characters elsewhere in the text are not removed.  Declared only to be
compared with parse_value, which is the code's behaviour. -/
def parse_value_claimed (s : String) : Option PyRat :=
  let t := pyStrip s
  let t2 := String.mk ((t.data.reverse.dropWhile (fun c => c = 'H' ∨ c = 'L')).reverse)
  pyFloat (pyStrip t2)

/-- The (lower-cased, space-free) range text the detector works on:
normal_range.lower().replace(" ", "") from src/pages/1_Problems.py
line 48. -/
def rngOf (nr : String) : String :=
  pyRemove (pyLower nr) " "

/-- Outcome of one range-shape stage: it classified the value, it fell
through to the next stage, or it raised (the surrounding try turns the
exception into an overall None). -/
inductive ShapeOut where
  | classified (s : String)
  | fallThrough
  | exc
deriving DecidableEq, Repr

/-- Condition of the interval shape: the range text contains a dash
(src/pages/1_Problems.py line 50). -/
def dashCond (rng : String) : Bool :=
  strContains rng "-"

/-- Python low, high = rng.split("-"): succeeds exactly when the split
has precisely two pieces, otherwise the unpacking raises. -/
def splitDash2 (rng : String) : Option (String × String) :=
  match splitDashCore rng.data with
  | [a, b] => some (String.mk a, String.mk b)
  | _ => none

/-- The interval shape (src/pages/1_Problems.py lines 50-55): split on
the dash, compare against low first (so an unparsable high bound is
only reached when the value is not below low), fall through when the
value is inside the interval. -/
def shape1run (q : PyRat) (rng : String) : ShapeOut :=
  if dashCond rng then
    match splitDash2 rng with
    | none => ShapeOut.exc
    | some (a, b) =>
      match pyFloat a with
      | none => ShapeOut.exc
      | some low =>
        if q < low then ShapeOut.classified "low"
        else
          match pyFloat b with
          | none => ShapeOut.exc
          | some high => if high < q then ShapeOut.classified "high" else ShapeOut.fallThrough
  else ShapeOut.fallThrough

/-- Condition of the upper-limit shape (line 57). -/
def cond2 (rng : String) : Bool :=
  strContains rng "upto" || strStarts rng "<"

/-- The upper-limit shape (lines 57-60): strip the tokens, parse the
remainder, classify high when the value exceeds the limit. -/
def shape2run (q : PyRat) (rng : String) : ShapeOut :=
  if cond2 rng then
    match pyFloat (pyRemove (pyRemove rng "upto") "<") with
    | none => ShapeOut.exc
    | some limit => if limit < q then ShapeOut.classified "high" else ShapeOut.fallThrough
  else ShapeOut.fallThrough

/-- Condition of the lower-limit shape (line 62). -/
def cond3 (rng : String) : Bool :=
  strContains rng "morethan" || strStarts rng ">"

/-- The lower-limit shape (lines 62-65). -/
def shape3run (q : PyRat) (rng : String) : ShapeOut :=
  if cond3 rng then
    match pyFloat (pyRemove (pyRemove rng "morethan") ">") with
    | none => ShapeOut.exc
    | some limit => if q < limit then ShapeOut.classified "low" else ShapeOut.fallThrough
  else ShapeOut.fallThrough

/-- The sequential stage chain of get_abnormal_type's try block: a
classification returns, an exception yields None, a fall-through moves
to the next stage, and the end of the chain yields None. -/
def runShapes (q : PyRat) (rng : String) : Option String :=
  match shape1run q rng with
  | ShapeOut.classified s => some s
  | ShapeOut.exc => none
  | ShapeOut.fallThrough =>
    match shape2run q rng with
    | ShapeOut.classified s => some s
    | ShapeOut.exc => none
    | ShapeOut.fallThrough =>
      match shape3run q rng with
      | ShapeOut.classified s => some s
      | ShapeOut.exc => none
      | ShapeOut.fallThrough => none

/-- get_abnormal_type from src/pages/1_Problems.py lines 42-70. -/
def get_abnormal_type (raw_value : Option String) (normal_range : Option String) :
    Option String :=
  match parse_value raw_value with
  | none => none
  | some value =>
    match normal_range with
    | none => none
    | some nr =>
      if nr = "" then none
      else runShapes value (rngOf nr)

/-- The classification a single stage yields on its own. -/
def shapeEval (o : ShapeOut) : Option String :=
  match o with
  | ShapeOut.classified s => some s
  | _ => none

/-- The specification-side dispatch of claim C5: the three shapes are
checked in the fixed order and only the first shape whose condition
holds determines the result. -/
def firstShapeSpec (q : PyRat) (rng : String) : Option String :=
  if dashCond rng then shapeEval (shape1run q rng)
  else if cond2 rng then shapeEval (shape2run q rng)
  else if cond3 rng then shapeEval (shape3run q rng)
  else none

/-! ## src/medical_extractor.py — extract_tests_from_page (lines 28-125) -/

/-- Values of the external JSON collaborator (Python's json module and
the requests Response.json method). -/
inductive JVal where
  | jnull
  | jbool (b : Bool)
  | jnum (q : PyRat)
  | jstr (s : String)
  | jarr (xs : List JVal)
  | jobj (fields : List (String × JVal))
deriving Repr

/-- Python truthiness of a JSON value. -/
def jTruthy (v : JVal) : Bool :=
  match v with
  | JVal.jnull => false
  | JVal.jbool b => b
  | JVal.jnum q => decide (q.num ≠ 0)
  | JVal.jstr s => decide (s ≠ "")
  | JVal.jarr xs => !xs.isEmpty
  | JVal.jobj fs => !fs.isEmpty

/-- Python dict get on a parsed JSON object. -/
def jLookup (fields : List (String × JVal)) (k : String) : Option JVal :=
  (fields.find? (fun p => decide (p.1 = k))).map (fun p => p.2)

/-- Collapse every maximal whitespace run into a single space,
modelling re.sub(r"\s+", " ", name). -/
def collapseWs : List Char → List Char
  | [] => []
  | c :: cs =>
    if c.isWhitespace then ' ' :: collapseWs (cs.dropWhile Char.isWhitespace)
    else c :: collapseWs cs
termination_by cs => cs.length
decreasing_by
  · simp only [List.length_cons]
    have := (List.dropWhile_sublist (l := cs) Char.isWhitespace).length_le
    omega
  · simp only [List.length_cons]
    omega

/-- normalize_test_name from src/medical_extractor.py lines 13-22. -/
def normalize_test_name (name : String) : String :=
  let n1 := pyLower name
  let n2 := String.mk (collapseWs n1.data)
  let n3 := pyReplace n2 " ," ","
  let n4 := pyReplace n3 ", " ","
  pyStrip n4

/-- Python dict assignment t["test_name"] = v for a key already present
in the object. -/
def jSetField (fs : List (String × JVal)) (k : String) (v : JVal) : List (String × JVal) :=
  fs.map (fun p => if p.1 = k then (p.1, v) else p)

/-- The normalization loop over the extracted tests list
(src/medical_extractor.py lines 118-120), run inside the try block:
`none` models an exception (a non-dict element, or a truthy non-string
test_name whose lower() raises), which the except turns into []. -/
def normTests : List JVal → Option (List JVal)
  | [] => some []
  | t :: ts =>
    match t with
    | JVal.jobj fs =>
      match jLookup fs "test_name" with
      | some v =>
        if jTruthy v then
          match v with
          | JVal.jstr s =>
            (normTests ts).map
              (fun r => JVal.jobj (jSetField fs "test_name" (JVal.jstr (normalize_test_name s))) :: r)
          | _ => none
        else (normTests ts).map (fun r => t :: r)
      | none => (normTests ts).map (fun r => t :: r)
    | _ => none

/-- extract_tests_from_page from src/medical_extractor.py lines 28-125.
External effects are passed in: `transport = none` models a
requests.RequestException (caught, line 108); `transport = some body`
models an HTTP response, where `body = none` means the response body is
not valid JSON — res.json() on line 111 then raises OUTSIDE the
try/except, modelled as Except.error — and `body = some j` is the
parsed body.  `loads` models json.loads applied to the "response"
field; its failure and every failure of the shaping loop happen inside
the second try block and are caught (lines 113-125). -/
def extract_tests_from_page (transport : Option (Option JVal))
    (loads : String → Option JVal) : Except Unit (List JVal) :=
  match transport with
  | none => Except.ok []
  | some none => Except.error ()
  | some (some body) =>
    match body with
    | JVal.jobj fs =>
      match (jLookup fs "response").getD (JVal.jstr "") with
      | JVal.jstr raw0 =>
        let raw := pyStrip raw0
        match loads raw with
        | none => Except.ok []
        | some parsed =>
          match parsed with
          | JVal.jobj pfs =>
            match (jLookup pfs "tests").getD (JVal.jarr []) with
            | JVal.jarr ts => Except.ok ((normTests ts).getD [])
            | _ => Except.ok []
          | _ => Except.ok []
      | _ => Except.error ()
    | _ => Except.error ()


/-! ## Utility lemmas: characters, lower-casing, trimming -/

theorem dictLookup_mem {K V : Type} [DecidableEq K] {m : List (K × V)} {k : K} {v : V}
    (h : dictLookup m k = some v) : (k, v) ∈ m := by
  unfold dictLookup at h
  obtain ⟨p, hf, hv⟩ := Option.map_eq_some'.mp h
  have h1 := List.find?_some hf
  have h2 := List.mem_of_find?_eq_some hf
  simp only [decide_eq_true_eq] at h1
  subst hv
  rw [← h1]
  exact h2

theorem lowerTable_snd_none : ∀ p ∈ lowerTable, dictLookup lowerTable p.2 = none := by decide

theorem lowerTable_not_ws :
    ∀ p ∈ lowerTable, p.1.isWhitespace = false ∧ p.2.isWhitespace = false := by decide

theorem pyLowerChar_idem (c : Char) : pyLowerChar (pyLowerChar c) = pyLowerChar c := by
  unfold pyLowerChar
  rcases h : dictLookup lowerTable c with _ | d
  · simp [h]
  · simp only [Option.getD_some]
    rw [lowerTable_snd_none _ (dictLookup_mem h)]
    rfl

theorem pyLowerChar_ws (c : Char) : (pyLowerChar c).isWhitespace = c.isWhitespace := by
  unfold pyLowerChar
  rcases h : dictLookup lowerTable c with _ | d
  · rfl
  · have hm := lowerTable_not_ws _ (dictLookup_mem h)
    simp only [Option.getD_some, hm.1, hm.2]

theorem str_eq_empty_iff (s : String) : s = "" ↔ s.data = [] := by
  rw [String.ext_iff]

theorem pyLower_data (s : String) : (pyLower s).data = s.data.map pyLowerChar := rfl

theorem pyLower_eq_empty_iff (s : String) : pyLower s = "" ↔ s = "" := by
  rw [str_eq_empty_iff, str_eq_empty_iff, pyLower_data, List.map_eq_nil_iff]

theorem pyLowerChar_comp_self : pyLowerChar ∘ pyLowerChar = pyLowerChar :=
  funext pyLowerChar_idem

theorem pyLower_idem (s : String) : pyLower (pyLower s) = pyLower s := by
  unfold pyLower
  rw [List.map_map, pyLowerChar_comp_self]

theorem listTrim_eq_rdrop (cs : List Char) :
    listTrim cs = List.rdropWhile Char.isWhitespace (cs.dropWhile Char.isWhitespace) := rfl

theorem dropWhile_fixes_listTrim (cs : List Char) :
    (listTrim cs).dropWhile Char.isWhitespace = listTrim cs := by
  have hpre := List.rdropWhile_prefix (p := Char.isWhitespace)
    (l := cs.dropWhile Char.isWhitespace)
  rw [← listTrim_eq_rdrop] at hpre
  rcases hx : listTrim cs with _ | ⟨a, t⟩
  · rfl
  · rw [hx] at hpre
    obtain ⟨r, hr⟩ := hpre
    have hhead := List.head?_dropWhile_not Char.isWhitespace cs
    rw [← hr] at hhead
    simp only [List.cons_append, List.head?_cons] at hhead
    simp [List.dropWhile_cons, hhead]

theorem listTrim_idem (cs : List Char) : listTrim (listTrim cs) = listTrim cs := by
  have h1 := listTrim_eq_rdrop (listTrim cs)
  rw [dropWhile_fixes_listTrim] at h1
  rw [h1, listTrim_eq_rdrop cs, List.rdropWhile_idempotent]

theorem pyStrip_idem (s : String) : pyStrip (pyStrip s) = pyStrip s := by
  unfold pyStrip
  rw [listTrim_idem]

theorem ws_comp_lower : (Char.isWhitespace ∘ pyLowerChar) = Char.isWhitespace :=
  funext pyLowerChar_ws

theorem listTrim_map_lower (cs : List Char) :
    listTrim (cs.map pyLowerChar) = (listTrim cs).map pyLowerChar := by
  unfold listTrim
  rw [List.dropWhile_map, ws_comp_lower, ← List.map_reverse, List.dropWhile_map,
    ws_comp_lower, ← List.map_reverse]

theorem pyStrip_lower_comm (s : String) : pyStrip (pyLower s) = pyLower (pyStrip s) := by
  unfold pyStrip pyLower
  simp only [listTrim_map_lower]

theorem pyStrip_fixes_lower_strip (s : String) :
    pyStrip (pyLower (pyStrip s)) = pyLower (pyStrip s) := by
  rw [pyStrip_lower_comm, pyStrip_idem]

theorem mem_dropWhile_of_mem {c : Char} {l : List Char} {p : Char → Bool}
    (hm : c ∈ l) (hp : p c = false) : c ∈ l.dropWhile p := by
  induction l with
  | nil => cases hm
  | cons a t ih =>
    rw [List.dropWhile_cons]
    rcases List.mem_cons.mp hm with h | h
    · subst h
      rw [hp]
      exact List.mem_cons_self _ _
    · by_cases ha : p a = true
      · rw [ha]
        simp only [if_true]
        exact ih h
      · simp only [Bool.not_eq_true] at ha
        rw [ha]
        simp only [Bool.false_eq_true, if_false]
        exact List.mem_cons_of_mem _ h

theorem mem_listTrim_of_mem {c : Char} {l : List Char}
    (hm : c ∈ l) (hws : c.isWhitespace = false) : c ∈ listTrim l := by
  unfold listTrim
  rw [List.mem_reverse]
  apply mem_dropWhile_of_mem _ hws
  rw [List.mem_reverse]
  exact mem_dropWhile_of_mem hm hws

theorem mem_takeWhile_pred {c : Char} {l : List Char} {p : Char → Bool}
    (hm : c ∈ l.takeWhile p) : p c = true := by
  induction l with
  | nil => cases hm
  | cons a t ih =>
    rw [List.takeWhile_cons] at hm
    by_cases ha : p a = true
    · rw [ha] at hm
      simp only [if_true] at hm
      rcases List.mem_cons.mp hm with h | h
      · subst h; exact ha
      · exact ih h
    · simp only [Bool.not_eq_true] at ha
      rw [ha] at hm
      simp at hm

/-! ## Utility lemmas: substrings, splitting, removing, float characters -/

theorem isPrefixOf_mem {p l : List Char} (h : p.isPrefixOf l = true) {c : Char}
    (hc : c ∈ p) : c ∈ l :=
  (List.isPrefixOf_iff_prefix.mp h).subset hc

theorem mem_of_listContainsSub {needle hay : List Char}
    (h : listContainsSub needle hay = true) {c : Char} (hc : c ∈ needle) : c ∈ hay := by
  induction hay with
  | nil =>
    unfold listContainsSub at h
    rw [List.isEmpty_iff] at h
    subst h
    cases hc
  | cons a t ih =>
    unfold listContainsSub at h
    rw [Bool.or_eq_true] at h
    rcases h with h1 | h1
    · exact isPrefixOf_mem h1 hc
    · exact List.mem_cons_of_mem _ (ih h1)

theorem listContainsSub_singleton {c : Char} {hay : List Char}
    (hm : c ∈ hay) : listContainsSub [c] hay = true := by
  induction hay with
  | nil => cases hm
  | cons a t ih =>
    unfold listContainsSub
    rcases List.mem_cons.mp hm with h | h
    · subst h
      simp [List.isPrefixOf]
    · rw [ih h]
      simp

theorem strContains_mem {rng tok : String} (h : strContains rng tok = true)
    {c : Char} (hc : c ∈ tok.data) : c ∈ rng.data :=
  mem_of_listContainsSub h hc

theorem strStarts_mem {rng tok : String} (h : strStarts rng tok = true)
    {c : Char} (hc : c ∈ tok.data) : c ∈ rng.data :=
  isPrefixOf_mem h hc

theorem splitDashCore_ne_nil (cs : List Char) : splitDashCore cs ≠ [] := by
  induction cs with
  | nil => simp [splitDashCore]
  | cons c t ih =>
    unfold splitDashCore
    by_cases hc : c = '-'
    · simp [hc]
    · simp only [hc, if_false]
      rcases hr : splitDashCore t with _ | ⟨h, r⟩
      · simp
      · simp

theorem splitDashCore_single : ∀ {cs a : List Char}, splitDashCore cs = [a] → cs = a := by
  intro cs
  induction cs with
  | nil =>
    intro a h
    simp [splitDashCore] at h
    exact h.symm
  | cons c t ih =>
    intro a h
    unfold splitDashCore at h
    by_cases hc : c = '-'
    · rw [if_pos hc] at h
      simp only [List.cons.injEq] at h
      exact absurd h.2 (splitDashCore_ne_nil t)
    · rw [if_neg hc] at h
      rcases hr : splitDashCore t with _ | ⟨hd, r⟩
      · exact absurd hr (splitDashCore_ne_nil t)
      · rw [hr] at h
        simp only [List.cons.injEq] at h
        obtain ⟨rfl, hr0⟩ := h
        subst hr0
        rw [ih hr]

theorem splitDashCore_pair : ∀ {cs a b : List Char},
    splitDashCore cs = [a, b] → cs = a ++ '-' :: b := by
  intro cs
  induction cs with
  | nil =>
    intro a b h
    simp [splitDashCore] at h
  | cons c t ih =>
    intro a b h
    unfold splitDashCore at h
    by_cases hc : c = '-'
    · rw [if_pos hc] at h
      simp only [List.cons.injEq] at h
      obtain ⟨rfl, h2⟩ := h
      rw [splitDashCore_single h2, hc]
      rfl
    · rw [if_neg hc] at h
      rcases hr : splitDashCore t with _ | ⟨hd, r⟩
      · exact absurd hr (splitDashCore_ne_nil t)
      · rw [hr] at h
        simp only [List.cons.injEq] at h
        obtain ⟨rfl, h2⟩ := h
        rw [h2] at hr
        rw [ih hr]
        rfl

theorem pyExpDigits_chars {cs : List Char} {z : Int} (h : pyExpDigits cs = some z) :
    ∀ c ∈ cs, floatChar c = true := by
  unfold pyExpDigits at h
  by_cases h1 : cs ≠ [] ∧ cs.all Char.isDigit
  · intro c hm
    have hd := List.all_eq_true.mp h1.2 c hm
    unfold floatChar
    rw [hd]
    rfl
  · rw [if_neg h1] at h
    cases h

theorem pyExp_chars {cs : List Char} {z : Int} (h : pyExp cs = some z) :
    ∀ c ∈ cs, floatChar c = true := by
  cases cs with
  | nil => intro c hm; cases hm
  | cons c0 r =>
    simp only [pyExp] at h
    by_cases h1 : c0 = '+'
    · rw [if_pos h1] at h
      intro c hm
      rcases List.mem_cons.mp hm with hc | hc
      · subst hc; subst h1; decide
      · exact pyExpDigits_chars h c hc
    · rw [if_neg h1] at h
      by_cases h2 : c0 = '-'
      · rw [if_pos h2] at h
        obtain ⟨z2, hz, _⟩ := Option.map_eq_some'.mp h
        intro c hm
        rcases List.mem_cons.mp hm with hc | hc
        · subst hc; subst h2; decide
        · exact pyExpDigits_chars hz c hc
      · rw [if_neg h2] at h
        exact pyExpDigits_chars h

theorem pyFloatTail_chars {mant : PyRat} {rest2 : List Char} {q : PyRat}
    (h : pyFloatTail mant rest2 = some q) : ∀ c ∈ rest2, floatChar c = true := by
  cases rest2 with
  | nil => intro c hm; cases hm
  | cons c0 r =>
    simp only [pyFloatTail] at h
    by_cases h1 : c0 = 'e'
    · rw [if_pos h1] at h
      obtain ⟨z, hz, _⟩ := Option.map_eq_some'.mp h
      intro c hm
      rcases List.mem_cons.mp hm with hc | hc
      · subst hc; subst h1; decide
      · exact pyExp_chars hz c hc
    · rw [if_neg h1] at h
      cases h

theorem pyFloatMantissa_chars {ip rest1 : List Char} {q : PyRat}
    (h : pyFloatMantissa ip rest1 = some q) : ∀ c ∈ rest1, floatChar c = true := by
  cases rest1 with
  | nil => intro c hm; cases hm
  | cons c0 r =>
    simp only [pyFloatMantissa] at h
    by_cases h1 : c0 = '.'
    · rw [if_pos h1] at h
      by_cases h2 : ip.isEmpty && (r.takeWhile Char.isDigit).isEmpty
      · rw [if_pos h2] at h
        cases h
      · rw [if_neg h2] at h
        intro c hm
        rcases List.mem_cons.mp hm with hc | hc
        · subst hc; subst h1; decide
        · have hr : r = r.takeWhile Char.isDigit ++ r.dropWhile Char.isDigit :=
            (List.takeWhile_append_dropWhile _ _).symm
          rw [hr] at hc
          rcases List.mem_append.mp hc with hc2 | hc2
          · have hd := mem_takeWhile_pred hc2
            unfold floatChar
            rw [hd]
            rfl
          · exact pyFloatTail_chars h c hc2
    · rw [if_neg h1] at h
      by_cases h2 : ip.isEmpty
      · rw [if_pos h2] at h
        cases h
      · rw [if_neg h2] at h
        exact pyFloatTail_chars h

theorem pyFloatUnsigned_chars {cs : List Char} {q : PyRat}
    (h : pyFloatUnsigned cs = some q) : ∀ c ∈ cs, floatChar c = true := by
  intro c hm
  have hsplit : cs = cs.takeWhile Char.isDigit ++ cs.dropWhile Char.isDigit :=
    (List.takeWhile_append_dropWhile _ _).symm
  rw [hsplit] at hm
  rcases List.mem_append.mp hm with hc | hc
  · have hd := mem_takeWhile_pred hc
    unfold floatChar
    rw [hd]
    rfl
  · exact pyFloatMantissa_chars h c hc

theorem pyFloatCore_chars {cs : List Char} {q : PyRat}
    (h : pyFloatCore cs = some q) : ∀ c ∈ cs, floatChar c = true := by
  cases cs with
  | nil => intro c hm; cases hm
  | cons c0 r =>
    simp only [pyFloatCore] at h
    by_cases h1 : c0 = '+'
    · rw [if_pos h1] at h
      intro c hm
      rcases List.mem_cons.mp hm with hc | hc
      · subst hc; subst h1; decide
      · exact pyFloatUnsigned_chars h c hc
    · rw [if_neg h1] at h
      by_cases h2 : c0 = '-'
      · rw [if_pos h2] at h
        obtain ⟨q2, hq, _⟩ := Option.map_eq_some'.mp h
        intro c hm
        rcases List.mem_cons.mp hm with hc | hc
        · subst hc; subst h2; decide
        · exact pyFloatUnsigned_chars hq c hc
      · rw [if_neg h2] at h
        exact pyFloatUnsigned_chars h

theorem pyFloat_chars {s : String} {q : PyRat} (h : pyFloat s = some q) :
    ∀ c ∈ s.data, c.isWhitespace = true ∨ floatChar (pyLowerChar c) = true := by
  intro c hm
  by_cases hws : c.isWhitespace = true
  · exact Or.inl hws
  · right
    simp only [Bool.not_eq_true] at hws
    have hm2 : pyLowerChar c ∈ s.data.map pyLowerChar := List.mem_map_of_mem _ hm
    have hws2 : (pyLowerChar c).isWhitespace = false := by rw [pyLowerChar_ws]; exact hws
    have hm3 := mem_listTrim_of_mem hm2 hws2
    exact pyFloatCore_chars h _ hm3

theorem pyFloat_not_mem {c : Char} (hws : c.isWhitespace = false)
    (hfc : floatChar (pyLowerChar c) = false) {s : String} {q : PyRat}
    (h : pyFloat s = some q) : c ∉ s.data := by
  intro hm
  rcases pyFloat_chars h c hm with h1 | h1
  · rw [hws] at h1
    cases h1
  · rw [hfc] at h1
    cases h1

theorem mem_replaceAllGo (pat rep : List Char) (c : Char) :
    ∀ (fuel : Nat) (cs : List Char), c ∈ cs →
      c ∈ replaceAllGo pat rep fuel cs ∨ c ∈ pat := by
  intro fuel
  induction fuel with
  | zero =>
    intro cs hm
    cases cs with
    | nil => cases hm
    | cons c0 cs => exact Or.inl hm
  | succ fuel ih =>
    intro cs hm
    cases cs with
    | nil => cases hm
    | cons c0 cs =>
      simp only [replaceAllGo]
      by_cases hcond : pat ≠ [] ∧ pat.isPrefixOf (c0 :: cs) = true
      · rw [if_pos hcond]
        obtain ⟨rest, hrest⟩ := List.isPrefixOf_iff_prefix.mp hcond.2
        have hlen : pat.length - 1 + 1 = pat.length :=
          Nat.succ_pred_eq_of_pos (List.length_pos.mpr hcond.1)
        have hdrop : rest = cs.drop (pat.length - 1) := by
          have h1 : (pat ++ rest).drop pat.length = rest := List.drop_left _ _
          rw [hrest] at h1
          have h2 : (c0 :: cs).drop pat.length = cs.drop (pat.length - 1) := by
            conv_lhs => rw [← hlen]
            exact List.drop_succ_cons
          rw [← h1, h2]
        rw [← hrest] at hm
        rcases List.mem_append.mp hm with hc | hc
        · exact Or.inr hc
        · rw [hdrop] at hc
          rcases ih _ hc with h2 | h2
          · exact Or.inl (List.mem_append_right _ h2)
          · exact Or.inr h2
      · rw [if_neg hcond]
        rcases List.mem_cons.mp hm with hc | hc
        · subst hc
          exact Or.inl (List.mem_cons_self _ _)
        · rcases ih _ hc with h2 | h2
          · exact Or.inl (List.mem_cons_of_mem _ h2)
          · exact Or.inr h2

theorem mem_removeAll {pat cs : List Char} {c : Char} (hm : c ∈ cs) :
    c ∈ removeAll pat cs ∨ c ∈ pat :=
  mem_replaceAllGo pat [] c cs.length cs hm

theorem removeAllGo_singleton (a : Char) :
    ∀ (fuel : Nat) (cs : List Char), cs.length ≤ fuel →
      replaceAllGo [a] [] fuel cs = cs.filter (fun c => !(decide (c = a))) := by
  intro fuel
  induction fuel with
  | zero =>
    intro cs hlen
    cases cs with
    | nil => rfl
    | cons c0 cs => simp at hlen
  | succ fuel ih =>
    intro cs hlen
    cases cs with
    | nil => rfl
    | cons c0 cs =>
      simp only [replaceAllGo]
      simp only [List.length_cons, Nat.add_le_add_iff_right] at hlen
      by_cases hac : a = c0
      · rw [if_pos]
        · simp only [List.length_cons, List.length_nil, Nat.zero_add, Nat.sub_self,
            List.drop_zero, List.nil_append]
          rw [ih cs hlen, List.filter_cons]
          subst hac
          simp
        · refine ⟨by simp, ?_⟩
          simp [List.isPrefixOf, hac]
      · rw [if_neg]
        · rw [ih cs hlen, List.filter_cons]
          have hne : (!decide (c0 = a)) = true := by
            simp
            exact fun h => hac h.symm
          rw [hne]
          simp
        · intro hcon
          have h2 := hcon.2
          simp [List.isPrefixOf] at h2
          exact hac h2

theorem removeAll_singleton (a : Char) (cs : List Char) :
    removeAll [a] cs = cs.filter (fun c => !(decide (c = a))) :=
  removeAllGo_singleton a cs.length cs (Nat.le_refl _)

theorem find?_filter_of_imp {α : Type} (p q : α → Bool) (l : List α)
    (himp : ∀ x, p x = true → q x = true) : (l.filter q).find? p = l.find? p := by
  induction l with
  | nil => rfl
  | cons a t ih =>
    by_cases hq : q a = true
    · rw [List.filter_cons_of_pos hq]
      by_cases hp : p a = true
      · rw [List.find?_cons_of_pos _ hp, List.find?_cons_of_pos _ hp]
      · rw [List.find?_cons_of_neg _ (by simp [hp]), List.find?_cons_of_neg _ (by simp [hp])]
        exact ih
    · rw [List.filter_cons_of_neg (by simp [hq])]
      rw [ih, List.find?_cons_of_neg]
      intro hpa
      exact hq (himp a hpa)

theorem dictLookup_insert_self {K V : Type} [DecidableEq K] (k : K) (v : V)
    (m : List (K × V)) : dictLookup (dictInsert k v m) k = some v := by
  unfold dictLookup dictInsert
  rw [List.find?_cons_of_pos _ (by simp)]
  rfl

theorem dictLookup_insert_ne {K V : Type} [DecidableEq K] {k k2 : K} (v : V)
    (m : List (K × V)) (h : k2 ≠ k) :
    dictLookup (dictInsert k v m) k2 = dictLookup m k2 := by
  unfold dictLookup dictInsert
  rw [List.find?_cons_of_neg _ (by simp; exact fun hkk => h hkk.symm)]
  rw [find?_filter_of_imp]
  intro x hx
  simp only [decide_eq_true_eq] at hx
  rw [hx]
  simp [h]

/-! ## Shape-priority lemmas for the AbnormalityDetector -/

theorem pyRemove_data (s pat : String) : (pyRemove s pat).data = removeAll pat.data s.data := rfl

theorem strContains_false_of_not_mem {rng tok : String} {c : Char}
    (hc : c ∈ tok.data) (hnm : c ∉ rng.data) : strContains rng tok = false := by
  cases hb : strContains rng tok
  · rfl
  · exact absurd (strContains_mem hb hc) hnm

theorem strStarts_false_of_not_mem {rng tok : String} {c : Char}
    (hc : c ∈ tok.data) (hnm : c ∉ rng.data) : strStarts rng tok = false := by
  cases hb : strStarts rng tok
  · rfl
  · exact absurd (strStarts_mem hb hc) hnm

theorem splitDash2_decomp {rng a b : String} (h : splitDash2 rng = some (a, b)) :
    rng.data = a.data ++ '-' :: b.data := by
  unfold splitDash2 at h
  rcases hsp : splitDashCore rng.data with _ | ⟨x, xs⟩
  · rw [hsp] at h
    cases h
  · rcases xs with _ | ⟨y, ys⟩
    · rw [hsp] at h
      cases h
    · rcases ys with _ | ⟨z, zs⟩
      · rw [hsp] at h
        simp only [Option.some.injEq, Prod.mk.injEq] at h
        have hx : x = a.data := by rw [← h.1]
        have hy : y = b.data := by rw [← h.2]
        rw [hx, hy] at hsp
        exact splitDashCore_pair hsp
      · rw [hsp] at h
        cases h

theorem not_mem_float_str {c : Char} (hws : c.isWhitespace = false)
    (hfc : floatChar (pyLowerChar c) = false) {a b : String} {low high : PyRat}
    (hfa : pyFloat a = some low) (hfb : pyFloat b = some high)
    {rng : String} (hd : rng.data = a.data ++ '-' :: b.data) (hcd : c ≠ '-') :
    c ∉ rng.data := by
  rw [hd]
  intro hm
  rcases List.mem_append.mp hm with hc | hc
  · exact pyFloat_not_mem hws hfc hfa hc
  · rcases List.mem_cons.mp hc with hc2 | hc2
    · exact hcd hc2
    · exact pyFloat_not_mem hws hfc hfb hc2

theorem conds_false_of_shape1_parses {rng a b : String} {low high : PyRat}
    (hsd : splitDash2 rng = some (a, b))
    (hfa : pyFloat a = some low) (hfb : pyFloat b = some high) :
    cond2 rng = false ∧ cond3 rng = false := by
  have hd := splitDash2_decomp hsd
  have hu : 'u' ∉ rng.data :=
    not_mem_float_str (by decide) (by decide) hfa hfb hd (by decide)
  have hlt : '<' ∉ rng.data :=
    not_mem_float_str (by decide) (by decide) hfa hfb hd (by decide)
  have hm : 'm' ∉ rng.data :=
    not_mem_float_str (by decide) (by decide) hfa hfb hd (by decide)
  have hgt : '>' ∉ rng.data :=
    not_mem_float_str (by decide) (by decide) hfa hfb hd (by decide)
  constructor
  · unfold cond2
    rw [@strContains_false_of_not_mem _ "upto" _ (by decide) hu,
      @strStarts_false_of_not_mem _ "<" _ (by decide) hlt]
    rfl
  · unfold cond3
    rw [@strContains_false_of_not_mem _ "morethan" _ (by decide) hm,
      @strStarts_false_of_not_mem _ ">" _ (by decide) hgt]
    rfl

theorem cond3_false_of_shape2_parses {rng : String} {limit : PyRat}
    (hp : pyFloat (pyRemove (pyRemove rng "upto") "<") = some limit) :
    cond3 rng = false := by
  have hm : 'm' ∉ rng.data := by
    intro hmem
    rcases @mem_removeAll ("upto" : String).data _ _ hmem with h1 | h1
    · rcases @mem_removeAll ("<" : String).data _ _ h1 with h2 | h2
      · have : 'm' ∉ (pyRemove (pyRemove rng "upto") "<").data :=
          pyFloat_not_mem (by decide) (by decide) hp
        exact this h2
      · revert h2
        decide
    · revert h1
      decide
  have hgt : '>' ∉ rng.data := by
    intro hmem
    rcases @mem_removeAll ("upto" : String).data _ _ hmem with h1 | h1
    · rcases @mem_removeAll ("<" : String).data _ _ h1 with h2 | h2
      · have : '>' ∉ (pyRemove (pyRemove rng "upto") "<").data :=
          pyFloat_not_mem (by decide) (by decide) hp
        exact this h2
      · revert h2
        decide
    · revert h1
      decide
  unfold cond3
  rw [@strContains_false_of_not_mem _ "morethan" _ (by decide) hm,
    @strStarts_false_of_not_mem _ ">" _ (by decide) hgt]
  rfl

theorem shape1run_fallThrough_inv {q : PyRat} {rng : String}
    (h1 : dashCond rng = true) (hs : shape1run q rng = ShapeOut.fallThrough) :
    ∃ a b low high, splitDash2 rng = some (a, b) ∧ pyFloat a = some low ∧
      pyFloat b = some high ∧ ¬(q < low) ∧ ¬(high < q) := by
  unfold shape1run at hs
  rw [if_pos h1] at hs
  rcases hsd : splitDash2 rng with _ | ⟨a, b⟩
  · rw [hsd] at hs
    cases hs
  · rw [hsd] at hs
    simp only at hs
    rcases hfa : pyFloat a with _ | low
    · rw [hfa] at hs
      cases hs
    · rw [hfa] at hs
      simp only at hs
      by_cases hql : q < low
      · rw [if_pos hql] at hs
        cases hs
      · rw [if_neg hql] at hs
        rcases hfb : pyFloat b with _ | high
        · rw [hfb] at hs
          cases hs
        · rw [hfb] at hs
          simp only at hs
          by_cases hhq : high < q
          · rw [if_pos hhq] at hs
            cases hs
          · exact ⟨a, b, low, high, rfl, hfa, hfb, hql, hhq⟩

theorem shape2run_fallThrough_inv {q : PyRat} {rng : String}
    (h2 : cond2 rng = true) (hs : shape2run q rng = ShapeOut.fallThrough) :
    ∃ limit, pyFloat (pyRemove (pyRemove rng "upto") "<") = some limit ∧ ¬(limit < q) := by
  unfold shape2run at hs
  rw [if_pos h2] at hs
  rcases hfl : pyFloat (pyRemove (pyRemove rng "upto") "<") with _ | limit
  · rw [hfl] at hs
    cases hs
  · rw [hfl] at hs
    simp only at hs
    by_cases hlq : limit < q
    · rw [if_pos hlq] at hs
      cases hs
    · exact ⟨limit, rfl, hlq⟩

theorem runShapes_eq_first (q : PyRat) (rng : String) :
    runShapes q rng = firstShapeSpec q rng := by
  unfold runShapes firstShapeSpec
  by_cases h1 : dashCond rng = true
  · rw [if_pos h1]
    rcases hs1 : shape1run q rng with s | _ | _
    · simp [shapeEval]
    · obtain ⟨a, b, low, high, hsd, hfa, hfb, _, _⟩ := shape1run_fallThrough_inv h1 hs1
      obtain ⟨hc2, hc3⟩ := conds_false_of_shape1_parses hsd hfa hfb
      have hs2 : shape2run q rng = ShapeOut.fallThrough := by
        unfold shape2run
        rw [hc2]
        rfl
      have hs3 : shape3run q rng = ShapeOut.fallThrough := by
        unfold shape3run
        rw [hc3]
        rfl
      rw [hs2, hs3]
      simp [shapeEval]
    · simp [shapeEval]
  · have h1f : dashCond rng = false := Bool.not_eq_true _ ▸ (by simpa using h1)
    rw [if_neg h1]
    have hs1 : shape1run q rng = ShapeOut.fallThrough := by
      unfold shape1run
      rw [h1f]
      rfl
    rw [hs1]
    by_cases h2 : cond2 rng = true
    · rw [if_pos h2]
      rcases hs2 : shape2run q rng with s | _ | _
      · simp [shapeEval]
      · obtain ⟨limit, hfl, _⟩ := shape2run_fallThrough_inv h2 hs2
        have hc3 := cond3_false_of_shape2_parses hfl
        have hs3 : shape3run q rng = ShapeOut.fallThrough := by
          unfold shape3run
          rw [hc3]
          rfl
        rw [hs3]
        simp [shapeEval]
      · simp [shapeEval]
    · have h2f : cond2 rng = false := by simpa using h2
      rw [if_neg h2]
      have hs2 : shape2run q rng = ShapeOut.fallThrough := by
        unfold shape2run
        rw [h2f]
        rfl
      rw [hs2]
      by_cases h3 : cond3 rng = true
      · rw [if_pos h3]
        rcases hs3 : shape3run q rng with s | _ | _ <;> simp [shapeEval]
      · have h3f : cond3 rng = false := by simpa using h3
        rw [if_neg h3]
        have hs3 : shape3run q rng = ShapeOut.fallThrough := by
          unfold shape3run
          rw [h3f]
          rfl
        rw [hs3]

/-! ## Claim theorems: AbnormalityDetector (C4, C5, C6) -/

/-- C4: for every reference-range text of the interval form low-high
(numeric, low < high) and every numerically parseable value, the
AbnormalityDetector returns "low" exactly when the value is below low,
"high" exactly when it is above high, and none otherwise; a value equal
to either bound yields none. -/
theorem claim4_interval_classification (v nr : String) (q low high : PyRat) (a b : String)
    (hpv : parse_value (some v) = some q)
    (hsd : splitDash2 (rngOf nr) = some (a, b))
    (hfa : pyFloat a = some low) (hfb : pyFloat b = some high)
    (_hlh : low < high) :
    get_abnormal_type (some v) (some nr) =
      (if q < low then some "low" else if high < q then some "high" else none) := by
  have hd := splitDash2_decomp hsd
  have hdash : dashCond (rngOf nr) = true := by
    unfold dashCond
    have hm : '-' ∈ (rngOf nr).data := by
      rw [hd]
      exact List.mem_append_right _ (List.mem_cons_self _ _)
    exact listContainsSub_singleton hm
  have hnr : nr ≠ "" := by
    intro he
    subst he
    have h0 : splitDash2 (rngOf "") = none := by decide
    rw [h0] at hsd
    cases hsd
  unfold get_abnormal_type
  rw [hpv]
  simp only
  rw [if_neg hnr, runShapes_eq_first]
  unfold firstShapeSpec
  rw [if_pos hdash]
  unfold shape1run
  rw [if_pos hdash, hsd]
  simp only
  rw [hfa]
  simp only
  by_cases hql : q < low
  · rw [if_pos hql, if_pos hql]
    rfl
  · rw [if_neg hql, if_neg hql, hfb]
    simp only
    by_cases hhq : high < q
    · rw [if_pos hhq, if_pos hhq]
      rfl
    · rw [if_neg hhq, if_neg hhq]
      rfl

/-- Witness for C4 at the spec's own example: range 3.5-5.5 and value
6.2 classify as high. -/
theorem claim4_witness :
    parse_value (some "6.2") = some { num := 62, den := 10 } ∧
    splitDash2 (rngOf "3.5-5.5") = some ("3.5", "5.5") ∧
    pyFloat "3.5" = some { num := 35, den := 10 } ∧
    pyFloat "5.5" = some { num := 55, den := 10 } ∧
    ({ num := 35, den := 10 : PyRat } < { num := 55, den := 10 : PyRat }) ∧
    get_abnormal_type (some "6.2") (some "3.5-5.5") =
      (if { num := 62, den := 10 : PyRat } < { num := 35, den := 10 } then some "low"
       else if { num := 55, den := 10 : PyRat } < { num := 62, den := 10 } then some "high"
       else none) :=
  ⟨by decide, by decide, by decide, by decide, by decide,
    claim4_interval_classification "6.2" "3.5-5.5" _ _ _ "3.5" "5.5"
      (by decide) (by decide) (by decide) (by decide) (by decide)⟩

/-- C5: the three range shapes are checked in the fixed order
(interval, then upper limit, then lower limit) and only the first shape
whose condition holds determines the classification — the code's
fall-through never lets a later shape classify once an earlier shape's
condition held; a missing or unparsable value, a missing or empty
range, and any stage-internal parse failure (modelled by the exc
outcome, which the code's except turns into None) all yield none, and
the embedding is a total function, so no exception reaches the
caller. -/
theorem claim5_shape_priority :
    (∀ v nr : Option String, parse_value v = none → get_abnormal_type v nr = none)
    ∧ (∀ v : Option String,
        get_abnormal_type v none = none ∧ get_abnormal_type v (some "") = none)
    ∧ (∀ (v nr : String) (q : PyRat), parse_value (some v) = some q → nr ≠ "" →
        get_abnormal_type (some v) (some nr) = firstShapeSpec q (rngOf nr)) := by
  refine ⟨?_, ?_, ?_⟩
  · intro v nr hpv
    unfold get_abnormal_type
    rw [hpv]
  · intro v
    constructor
    · unfold get_abnormal_type
      cases parse_value v <;> rfl
    · unfold get_abnormal_type
      cases parse_value v <;> rfl
  · intro v nr q hpv hnr
    unfold get_abnormal_type
    rw [hpv]
    simp only
    rw [if_neg hnr, runShapes_eq_first]

/-- Witness for C5: a parse failure yields none, and for a parseable
value the detector agrees with the first-matching-shape dispatch. -/
theorem claim5_witness :
    parse_value (some "abc") = none ∧
    get_abnormal_type (some "abc") (some "1-2") = none ∧
    parse_value (some "6.2") = some { num := 62, den := 10 } ∧
    ("upto 5" ≠ "") ∧
    get_abnormal_type (some "6.2") (some "upto 5") =
      firstShapeSpec { num := 62, den := 10 } (rngOf "upto 5") :=
  ⟨by decide, claim5_shape_priority.1 (some "abc") (some "1-2") (by decide), by decide,
    by decide,
    claim5_shape_priority.2.2 "6.2" "upto 5" _ (by decide) (by decide)⟩

/-- C6 counterexample: the claim says the value parser strips only a
TRAILING flag letter (and that characters other than a trailing flag
are not removed), so the value text 1H5 would be unparsable and
classify as none; the code removes every H and L, parses 15, and
classifies it against the range 0-10 as high. -/
theorem claim6_counterexample :
    parse_value (some "1H5") = some { num := 15, den := 1 } ∧
    parse_value_claimed "1H5" = none ∧
    get_abnormal_type (some "1H5") (some "0-10") = some "high" :=
  ⟨by decide, by decide, by decide⟩

/-- C6 amended: the value parser removes every occurrence of the
upper-case letters H and L anywhere in the value text, strips
surrounding whitespace, and parses the remainder as a float; a missing
or unparsable value yields the classification none. -/
theorem claim6_amended :
    (∀ v nr : Option String, parse_value v = none → get_abnormal_type v nr = none)
    ∧ parse_value none = none
    ∧ (∀ s : String, parse_value (some s) =
        pyFloat (pyStrip (String.mk
          (s.data.filter (fun c => !(decide (c = 'H') || decide (c = 'L'))))))) := by
  refine ⟨?_, rfl, ?_⟩
  · intro v nr hpv
    unfold get_abnormal_type
    rw [hpv]
  · intro s
    show pyFloat (pyStrip (pyRemove (pyRemove s "H") "L")) = _
    have hdata : (pyRemove (pyRemove s "H") "L").data =
        s.data.filter (fun c => !(decide (c = 'H') || decide (c = 'L'))) := by
      show removeAll ['L'] (removeAll ['H'] s.data) = _
      rw [removeAll_singleton, removeAll_singleton, List.filter_filter]
      apply List.filter_congr
      intro c _
      cases hH : decide (c = 'H') <;> cases hL : decide (c = 'L') <;> rfl
    rw [show pyRemove (pyRemove s "H") "L" = String.mk
      (s.data.filter (fun c => !(decide (c = 'H') || decide (c = 'L')))) from
      String.ext hdata]

/-- Witness for C6 amended: an unparsable value classifies as none. -/
theorem claim6_witness :
    parse_value (some "abc") = none ∧
    get_abnormal_type (some "abc") (some "1-2") = none :=
  ⟨by decide, claim6_amended.1 (some "abc") (some "1-2") (by decide)⟩

/-! ## Claim theorems: IdentityResolver (C3, C2) -/

theorem PyRat.lt_def (a b : PyRat) :
    (a < b) = (a.num * (b.den : Int) < b.num * (a.den : Int)) := rfl

theorem PyRat.le_def (a b : PyRat) :
    (a ≤ b) = (a.num * (b.den : Int) ≤ b.num * (a.den : Int)) := rfl

theorem resolve_step_none (existing : List ExistingTest) (tname tunit : String) :
    resolve_step none existing tname tunit = tname := by
  unfold resolve_step ai_match_test_name
  cases (candidate_filter (newTestOf tname tunit) existing).isEmpty <;> simp

/-- C3: when the candidate set is non-empty (so the matcher is
invoked), the resolver rewrites the test name if and only if the
matcher response parses as structured output whose match field is
non-empty and not the no_match sentinel and whose confidence is at
least 0.9; in particular any response with confidence strictly below
0.9 — and any response that fails to parse, modelled as the oracle
none — leaves the name exactly as extracted. -/
theorem claim3_confidence_gate :
    (∀ (tname tunit : String) (existing : List ExistingTest) (out : MatchOut),
      candidate_filter (newTestOf tname tunit) existing ≠ [] →
      resolve_step (some out) existing tname tunit =
        (if out.matchName ≠ "" ∧ out.matchName ≠ "no_match" ∧
            { num := 9, den := 10 : PyRat } ≤ out.confidence
         then out.matchName else tname))
    ∧ (∀ (tname tunit : String) (existing : List ExistingTest) (out : MatchOut),
        out.confidence < { num := 9, den := 10 : PyRat } →
        resolve_step (some out) existing tname tunit = tname)
    ∧ (∀ (tname tunit : String) (existing : List ExistingTest),
        resolve_step none existing tname tunit = tname) := by
  refine ⟨?_, ?_, ?_⟩
  · intro tname tunit existing out hne
    have hne2 : (candidate_filter (newTestOf tname tunit) existing).isEmpty = false :=
      List.isEmpty_eq_false.mpr hne
    unfold resolve_step ai_match_test_name
    simp only [hne2, Bool.false_eq_true, if_false]
    by_cases hacc : out.matchName ≠ "" ∧ out.matchName ≠ "no_match" ∧
        { num := 9, den := 10 : PyRat } ≤ out.confidence
    · rw [if_pos hacc, if_pos hacc]
      simp only
      rw [if_neg hacc.1]
    · rw [if_neg hacc, if_neg hacc]
  · intro tname tunit existing out hlt
    have hn : ¬(out.matchName ≠ "" ∧ out.matchName ≠ "no_match" ∧
        { num := 9, den := 10 : PyRat } ≤ out.confidence) := by
      intro hc
      have hle := hc.2.2
      rw [PyRat.lt_def] at hlt
      rw [PyRat.le_def] at hle
      simp only at hlt hle
      omega
    unfold resolve_step ai_match_test_name
    by_cases hemp : (candidate_filter (newTestOf tname tunit) existing).isEmpty = true
    · simp only [hemp, if_true]
    · have hemp2 : (candidate_filter (newTestOf tname tunit) existing).isEmpty = false := by
        simpa using hemp
      simp only [hemp2, Bool.false_eq_true, if_false]
      rw [if_neg hn]
  · intro tname tunit existing
    exact resolve_step_none existing tname tunit

/-- Witness for C3 at the spec's scenario: the matcher maps
"cholesterol total" to the historical "total cholesterol" with
confidence 0.95, and the resolver adopts that name. -/
theorem claim3_witness :
    candidate_filter (newTestOf "cholesterol total" "mg/dl")
      (get_existing_tests [("total cholesterol", "mg/dl")]) ≠ [] ∧
    resolve_step (some { matchName := "total cholesterol", confidence := { num := 95, den := 100 } })
      (get_existing_tests [("total cholesterol", "mg/dl")]) "cholesterol total" "mg/dl" =
      (if ("total cholesterol" ≠ "" ∧ "total cholesterol" ≠ "no_match" ∧
          { num := 9, den := 10 : PyRat } ≤ { num := 95, den := 100 : PyRat })
       then "total cholesterol" else "cholesterol total") :=
  ⟨by decide, claim3_confidence_gate.1 "cholesterol total" "mg/dl" _ _ (by decide)⟩

/-- C2 counterexample: the pair (tsh, miu/ml) differs from the new test
(cholesterol total, mg/dl) in panel and in unit, and is correctly
excluded from the candidate list; but because another vocabulary entry
passes the filter, the matcher is invoked, and its returned match name
is accepted without being validated against the candidate list — a
response naming the excluded pair rewrites the new test's name to that
pair's name, contradicting the claim. -/
theorem claim2_counterexample :
    existingOf ("tsh", "miu/ml") ∈
      get_existing_tests [("total cholesterol", "mg/dl"), ("tsh", "miu/ml")] ∧
    extract_panel (existingOf ("tsh", "miu/ml")).name ≠ extract_panel "cholesterol total" ∧
    pyLower (existingOf ("tsh", "miu/ml")).unit ≠ pyLower "mg/dl" ∧
    existingOf ("tsh", "miu/ml") ∉
      candidate_filter (newTestOf "cholesterol total" "mg/dl")
        (get_existing_tests [("total cholesterol", "mg/dl"), ("tsh", "miu/ml")]) ∧
    resolve_step (some { matchName := "tsh", confidence := { num := 95, den := 100 } })
      (get_existing_tests [("total cholesterol", "mg/dl"), ("tsh", "miu/ml")])
      "cholesterol total" "mg/dl" = (existingOf ("tsh", "miu/ml")).name := by
  refine ⟨by decide, by decide, by decide, by decide, by decide⟩

/-- C2 amended: a vocabulary pair that differs from the new test in
structural type, panel, or (case-insensitive) unit is never included
among the candidates given to the matcher, and if every vocabulary
entry is excluded the matcher is not invoked and the extracted name is
kept as-is; however the accepted match name is not validated against
the candidate list, so whenever at least one candidate passes the
filter, the name can be rewritten to any string the matcher returns
with confidence at least 0.9 — including an excluded pair's name. -/
theorem claim2_filter_amended :
    ∀ (pairs : List (String × String)) (tname tunit : String) (oracle : Option MatchOut),
      (∀ et ∈ get_existing_tests pairs,
        (et.type ≠ (newTestOf tname tunit).type ∨ et.panel ≠ (newTestOf tname tunit).panel ∨
          pyLower et.unit ≠ pyLower tunit) →
        et ∉ candidate_filter (newTestOf tname tunit) (get_existing_tests pairs))
      ∧ (candidate_filter (newTestOf tname tunit) (get_existing_tests pairs) = [] →
          resolve_step oracle (get_existing_tests pairs) tname tunit = tname)
      ∧ (resolve_step oracle (get_existing_tests pairs) tname tunit ≠ tname →
          candidate_filter (newTestOf tname tunit) (get_existing_tests pairs) ≠ [] ∧
          ∃ out, oracle = some out ∧
            resolve_step oracle (get_existing_tests pairs) tname tunit = out.matchName ∧
            out.matchName ≠ "no_match" ∧ out.matchName ≠ "" ∧
            { num := 9, den := 10 : PyRat } ≤ out.confidence) := by
  intro pairs tname tunit oracle
  refine ⟨?_, ?_, ?_⟩
  · intro et _ hdiff hin
    have hin2 := List.mem_filter.mp hin
    simp only [Bool.and_eq_true, decide_eq_true_eq] at hin2
    obtain ⟨_, ⟨h1, h2⟩, h3⟩ := hin2
    rcases hdiff with hd | hd | hd
    · exact hd h1
    · exact hd h2
    · exact hd h3
  · intro hcand
    unfold resolve_step ai_match_test_name
    simp only [hcand, List.isEmpty_nil, if_true]
  · intro hneq
    cases horacle : oracle with
    | none =>
      rw [horacle] at hneq
      exact absurd (resolve_step_none _ tname tunit) hneq
    | some out =>
      rw [horacle] at hneq
      by_cases hemp : (candidate_filter (newTestOf tname tunit)
          (get_existing_tests pairs)).isEmpty = true
      · exfalso
        apply hneq
        unfold resolve_step ai_match_test_name
        simp only [hemp, if_true]
      · have hemp2 : (candidate_filter (newTestOf tname tunit)
            (get_existing_tests pairs)).isEmpty = false := by simpa using hemp
        refine ⟨List.isEmpty_eq_false.mp hemp2, out, rfl, ?_⟩
        by_cases hacc : out.matchName ≠ "" ∧ out.matchName ≠ "no_match" ∧
            { num := 9, den := 10 : PyRat } ≤ out.confidence
        · have hres : resolve_step (some out) (get_existing_tests pairs) tname tunit =
              out.matchName := by
            unfold resolve_step ai_match_test_name
            simp only [hemp2, Bool.false_eq_true, if_false]
            rw [if_pos hacc]
            simp only
            rw [if_neg hacc.1]
          exact ⟨hres, hacc.2.1, hacc.1, hacc.2.2⟩
        · exfalso
          apply hneq
          unfold resolve_step ai_match_test_name
          simp only [hemp2, Bool.false_eq_true, if_false]
          rw [if_neg hacc]

/-- Witness for C2 amended: with a vocabulary whose only entry differs
in panel and unit, the candidate list is empty and the extracted name
is kept. -/
theorem claim2_witness :
    candidate_filter (newTestOf "total cholesterol" "mg/dl")
      (get_existing_tests [("tsh", "miu/ml")]) = [] ∧
    resolve_step none (get_existing_tests [("tsh", "miu/ml")])
      "total cholesterol" "mg/dl" = "total cholesterol" :=
  ⟨by decide,
    (claim2_filter_amended [("tsh", "miu/ml")] "total cholesterol" "mg/dl" none).2.1 (by decide)⟩

/-! ## Claim theorems: bulk insert (C7, C10) -/

theorem pyStrip_data (s : String) : (pyStrip s).data = listTrim s.data := rfl

theorem pyLower_strip_eq_empty_iff (s : String) :
    pyLower (pyStrip s) = "" ↔ pyStrip s = "" :=
  pyLower_eq_empty_iff _

/-- C7: exactly those batch entries whose stripped test_name and
stripped value are both non-empty are persisted; an entry with empty
processed name or value is skipped, a batch of only empty-value entries
inserts zero rows, and every persisted row has non-empty test_name and
value. -/
theorem claim7_nonempty_persistence :
    ∀ tests : List TestDict,
      insert_test_results tests = (tests.filter keepObs).map rowOf
      ∧ (∀ r ∈ insert_test_results tests, r.test_name ≠ "" ∧ r.value ≠ "")
      ∧ ((∀ t ∈ tests, pyStrip (t.value.getD "") = "") → insert_test_results tests = []) := by
  intro tests
  induction tests with
  | nil => exact ⟨rfl, fun r hr => absurd hr (List.not_mem_nil r), fun _ => rfl⟩
  | cons t ts ih =>
    obtain ⟨ih1, ih2, ih3⟩ := ih
    by_cases hkeep : pyStrip (t.test_name.getD "") ≠ "" ∧ pyStrip (t.value.getD "") ≠ ""
    · have hk : keepObs t = true := by
        unfold keepObs
        simp only [Bool.and_eq_true, decide_eq_true_eq]
        exact hkeep
      have hskip : ¬(pyLower (pyStrip (t.test_name.getD "")) = "" ∨
          pyStrip (t.value.getD "") = "") := by
        intro hc
        rcases hc with hc | hc
        · exact hkeep.1 ((pyLower_strip_eq_empty_iff _).mp hc)
        · exact hkeep.2 hc
      refine ⟨?_, ?_, ?_⟩
      · unfold insert_test_results
        simp only
        rw [if_neg hskip, List.filter_cons_of_pos hk, List.map_cons, ih1]
      · intro r hr
        unfold insert_test_results at hr
        simp only at hr
        rw [if_neg hskip] at hr
        rcases List.mem_cons.mp hr with hre | hre
        · subst hre
          constructor
          · show pyLower (pyStrip (t.test_name.getD "")) ≠ ""
            intro hc
            exact hkeep.1 ((pyLower_strip_eq_empty_iff _).mp hc)
          · exact hkeep.2
        · exact ih2 r hre
      · intro hall
        exact absurd (hall t (List.mem_cons_self _ _)) hkeep.2
    · have hk : keepObs t = false := by
        unfold keepObs
        simp only [Bool.and_eq_true, decide_eq_true_eq] at hkeep ⊢
        simp only [Bool.and_eq_false_iff, decide_eq_false_iff_not]
        by_cases h1 : pyStrip (t.test_name.getD "") = ""
        · exact Or.inl (by simpa using h1)
        · right
          simpa using fun h2 => hkeep ⟨h1, h2⟩
      have hskip : pyLower (pyStrip (t.test_name.getD "")) = "" ∨
          pyStrip (t.value.getD "") = "" := by
        by_cases h1 : pyStrip (t.test_name.getD "") = ""
        · exact Or.inl ((pyLower_strip_eq_empty_iff _).mpr h1)
        · right
          by_contra h2
          exact hkeep ⟨h1, h2⟩
      refine ⟨?_, ?_, ?_⟩
      · unfold insert_test_results
        simp only
        rw [if_pos hskip, List.filter_cons_of_neg (by simp [hk]), ih1]
      · intro r hr
        unfold insert_test_results at hr
        simp only at hr
        rw [if_pos hskip] at hr
        exact ih2 r hr
      · intro hall
        unfold insert_test_results
        simp only
        rw [if_pos hskip]
        exact ih3 (fun t2 ht2 => hall t2 (List.mem_cons_of_mem _ ht2))

/-- Witness for C7: a batch with one kept entry and one empty-value
entry persists exactly the kept row, and a batch containing only
empty-value entries inserts zero rows. -/
theorem claim7_witness :
    insert_test_results [sampleKeptObs, sampleEmptyValueObs] =
      ([sampleKeptObs, sampleEmptyValueObs].filter keepObs).map rowOf ∧
    (∀ t ∈ [sampleEmptyValueObs], pyStrip (t.value.getD "") = "") ∧
    insert_test_results [sampleEmptyValueObs] = [] :=
  ⟨(claim7_nonempty_persistence _).1, by decide,
    (claim7_nonempty_persistence _).2.2 (by decide)⟩

theorem insert_test_results_mem {tests : List TestDict} {r : TRRow}
    (hr : r ∈ insert_test_results tests) : ∃ t, r = rowOf t := by
  induction tests with
  | nil => cases hr
  | cons t ts ih =>
    unfold insert_test_results at hr
    simp only at hr
    by_cases hskip : pyLower (pyStrip (t.test_name.getD "")) = "" ∨
        pyStrip (t.value.getD "") = ""
    · rw [if_pos hskip] at hr
      exact ih hr
    · rw [if_neg hskip] at hr
      rcases List.mem_cons.mp hr with hre | hre
      · exact ⟨t, hre⟩
      · exact ih hre

/-- C10: every persisted row has its test_name and test_context
lower-cased and whitespace-stripped, and its value and unit stripped,
by the bulk insert itself — so each persisted test name equals its own
lower-cased (and stripped) form, regardless of the casing of the input
observation. -/
theorem claim10_row_normalization :
    ∀ (tests : List TestDict) (r : TRRow), r ∈ insert_test_results tests →
      r.test_name = pyLower r.test_name ∧ r.test_context = pyLower r.test_context ∧
      r.test_name = pyStrip r.test_name ∧ r.test_context = pyStrip r.test_context ∧
      r.value = pyStrip r.value ∧ r.unit = pyStrip r.unit := by
  intro tests r hr
  obtain ⟨t, rfl⟩ := insert_test_results_mem hr
  refine ⟨?_, ?_, ?_, ?_, ?_, ?_⟩
  · exact (pyLower_idem _).symm
  · exact (pyLower_idem _).symm
  · exact (pyStrip_fixes_lower_strip _).symm
  · exact (pyStrip_fixes_lower_strip _).symm
  · exact (pyStrip_idem _).symm
  · exact (pyStrip_idem _).symm

/-- Witness for C10: the upper-cased input " Total Cholesterol " is
persisted lower-cased and stripped, equal to its own lower-cased
form. -/
theorem claim10_witness :
    rowOf sampleKeptObs ∈ insert_test_results [sampleKeptObs] ∧
    ((rowOf sampleKeptObs).test_name = pyLower ((rowOf sampleKeptObs).test_name) ∧
     (rowOf sampleKeptObs).test_context = pyLower ((rowOf sampleKeptObs).test_context) ∧
     (rowOf sampleKeptObs).test_name = pyStrip ((rowOf sampleKeptObs).test_name) ∧
     (rowOf sampleKeptObs).test_context = pyStrip ((rowOf sampleKeptObs).test_context) ∧
     (rowOf sampleKeptObs).value = pyStrip ((rowOf sampleKeptObs).value) ∧
     (rowOf sampleKeptObs).unit = pyStrip ((rowOf sampleKeptObs).unit)) :=
  ⟨by decide, claim10_row_normalization [sampleKeptObs] _ (by decide)⟩

/-! ## Claim theorems: explanation cache (C8) -/

/-- C8 counterexample: the cache key is case-folded only on test_name
and test_context; abnormal_type is compared verbatim, so a get through
a different casing of the third component misses the stored entry,
contradicting the claim that all three components are case-folded. -/
theorem claim8_counterexample :
    get_test_explanation
        (save_test_explanation [] "hba1c" "diabetes panel" "high" "text")
        "hba1c" "diabetes panel" "HIGH" = none := by decide

/-- C8 amended: the cache keys are case-folded on test_name and
test_context only, while abnormal_type is matched verbatim: a put
followed by a get through any casing of name and context and the same
abnormal_type returns the stored text, a later put to the same folded
key overwrites the earlier entry (exactly one row per key after a
save), and clear followed by get returns absent. -/
theorem claim8_cache_amended :
    (∀ (db : List ExpRow) (n c a e n2 c2 : String),
      pyLower n2 = pyLower n → pyLower c2 = pyLower c →
      get_test_explanation (save_test_explanation db n c a e) n2 c2 a = some e)
    ∧ (∀ (db : List ExpRow) (n c a e : String),
        ((save_test_explanation db n c a e).filter (expRowMatches n c a)).length = 1)
    ∧ (∀ (db : List ExpRow) (n c a : String),
        get_test_explanation (clear_test_explanations db) n c a = none) := by
  refine ⟨?_, ?_, ?_⟩
  · intro db n c a e n2 c2 hn hc
    unfold get_test_explanation save_test_explanation
    rw [List.find?_cons_of_pos]
    · rfl
    · unfold expRowMatches
      simp only [hn, hc]
      simp
  · intro db n c a e
    unfold save_test_explanation
    rw [List.filter_cons_of_pos]
    · rw [List.filter_filter]
      have hnil : (db.filter fun r => expRowMatches n c a r && !expRowMatches n c a r) = [] := by
        rw [List.filter_eq_nil_iff]
        intro r _
        cases expRowMatches n c a r <;> simp
      rw [hnil]
      rfl
    · unfold expRowMatches
      simp
  · intro db n c a
    rfl

/-- Witness for C8 amended at the spec's scenario: the stored
explanation is found through a different casing of name and context
with the same abnormal_type, and is absent after clear. -/
theorem claim8_witness :
    pyLower "HbA1c" = pyLower "hba1c" ∧
    pyLower "Diabetes Panel" = pyLower "diabetes panel" ∧
    get_test_explanation
        (save_test_explanation [] "hba1c" "diabetes panel" "high" "text")
        "HbA1c" "Diabetes Panel" "high" = some "text" ∧
    get_test_explanation
        (clear_test_explanations
          (save_test_explanation [] "hba1c" "diabetes panel" "high" "text"))
        "hba1c" "diabetes panel" "high" = none :=
  ⟨by decide, by decide,
    claim8_cache_amended.1 [] "hba1c" "diabetes panel" "high" "text" "HbA1c" "Diabetes Panel"
      (by decide) (by decide),
    claim8_cache_amended.2.2 _ "hba1c" "diabetes panel" "high"⟩

/-! ## Claim theorems: extraction failure semantics (C9) -/

/-- C9: the extraction's failure handling evaluated at its two failure
inputs.  A transport failure (requests.RequestException, the oracle
none) is caught and yields the empty test list, as the claim states;
but when the HTTP request succeeds and the response body is not valid
JSON — modelled as some none — the res.json() call on line 111 of
src/medical_extractor.py sits OUTSIDE the try/except and its
JSONDecodeError propagates to the caller (the Except.error outcome),
contradicting the claim that no failure raises for every possible
response body.  This supports the code_bug verdict: the code's own
comment says "fail safely, never crash the app". -/
theorem claim9_nonjson_body_raises :
    (∀ loads : String → Option JVal, extract_tests_from_page none loads = Except.ok [])
    ∧ (∀ loads : String → Option JVal,
        extract_tests_from_page (some none) loads = Except.error ()) :=
  ⟨fun _ => rfl, fun _ => rfl⟩

/-! ## Claim theorems: PageMerger range cache (C1) -/

theorem mergeObs_lookup_ne {cache recovered : List ((String × String) × String)}
    {t : TestDict} {k : String × String} (hk : keyOf t ≠ k) :
    dictLookup (mergeObs cache recovered t) k = dictLookup cache k := by
  unfold mergeObs
  cases htr : truthyOpt t.reference_range with
  | some r =>
    simp only
    exact dictLookup_insert_ne _ _ (fun he => hk he.symm)
  | none =>
    simp only
    cases hlook : dictLookup recovered (keyOf t) with
    | some r =>
      simp only
      exact dictLookup_insert_ne _ _ (fun he => hk he.symm)
    | none => rfl

theorem mergeObs_lookup_auth {cache recovered : List ((String × String) × String)}
    {t : TestDict} {r : String} (htr : truthyOpt t.reference_range = some r) :
    dictLookup (mergeObs cache recovered t) (keyOf t) = some r := by
  unfold mergeObs
  rw [htr]
  simp only
  exact dictLookup_insert_self _ _ _

theorem mergeObs_skip {cache recovered : List ((String × String) × String)}
    {t : TestDict} (htr : truthyOpt t.reference_range = none)
    (hrec : dictLookup recovered (keyOf t) = none) :
    mergeObs cache recovered t = cache := by
  unfold mergeObs
  rw [htr]
  simp only
  rw [hrec]

theorem foldMerge_auth :
    ∀ (stream : List (TestDict × List ((String × String) × String)))
      (c : List ((String × String) × String)) (k : String × String) (r0 : String),
      dictLookup c k = some r0 →
      (∀ tr ∈ stream, keyOf tr.1 = k → truthyOpt tr.1.reference_range = none →
        dictLookup tr.2 k = none) →
      ∃ r, dictLookup (stream.foldl (fun cc tr => mergeObs cc tr.2 tr.1) c) k = some r ∧
        (r = r0 ∨ ∃ tr ∈ stream, keyOf tr.1 = k ∧ truthyOpt tr.1.reference_range = some r) := by
  intro stream
  induction stream with
  | nil =>
    intro c k r0 h0 _
    exact ⟨r0, h0, Or.inl rfl⟩
  | cons tr rest ih =>
    intro c k r0 h0 hH
    rw [List.foldl_cons]
    have hHrest : ∀ tr2 ∈ rest, keyOf tr2.1 = k → truthyOpt tr2.1.reference_range = none →
        dictLookup tr2.2 k = none :=
      fun tr2 h2 => hH tr2 (List.mem_cons_of_mem _ h2)
    by_cases hkey : keyOf tr.1 = k
    · cases htr : truthyOpt tr.1.reference_range with
      | some r1 =>
        have hc1 : dictLookup (mergeObs c tr.2 tr.1) k = some r1 := by
          rw [← hkey]
          exact mergeObs_lookup_auth htr
        obtain ⟨r, hr, hor⟩ := ih (mergeObs c tr.2 tr.1) k r1 hc1 hHrest
        refine ⟨r, hr, Or.inr ?_⟩
        rcases hor with rfl | ⟨tr2, h2, h3, h4⟩
        · exact ⟨tr, List.mem_cons_self _ _, hkey, htr⟩
        · exact ⟨tr2, List.mem_cons_of_mem _ h2, h3, h4⟩
      | none =>
        have hrec : dictLookup tr.2 (keyOf tr.1) = none := by
          rw [hkey]
          exact hH tr (List.mem_cons_self _ _) hkey htr
        rw [mergeObs_skip htr hrec]
        obtain ⟨r, hr, hor⟩ := ih c k r0 h0 hHrest
        refine ⟨r, hr, ?_⟩
        rcases hor with rfl | ⟨tr2, h2, h3, h4⟩
        · exact Or.inl rfl
        · exact Or.inr ⟨tr2, List.mem_cons_of_mem _ h2, h3, h4⟩
    · have hc1 : dictLookup (mergeObs c tr.2 tr.1) k = some r0 := by
        rw [mergeObs_lookup_ne hkey]
        exact h0
      obtain ⟨r, hr, hor⟩ := ih (mergeObs c tr.2 tr.1) k r0 hc1 hHrest
      refine ⟨r, hr, ?_⟩
      rcases hor with rfl | ⟨tr2, h2, h3, h4⟩
      · exact Or.inl rfl
      · exact Or.inr ⟨tr2, List.mem_cons_of_mem _ h2, h3, h4⟩

/-- C1 counterexample: page one stores the authoritative range
0.4-4.5 for the key (tsh, ""); page two's observation for the same key
has no extractor range and its page's regex recovery maps the key to
9-99, and the merge loop overwrites the cached authoritative value
with the recovered one (the elif guard tests only the current
observation, not the cache).  The final cache holds 9-99 and the
second pass fills the missing range from it, contradicting the claim
that the entry remains the authoritative value for the rest of the
document. -/
theorem claim1_counterexample :
    keyOf tshAuthObs = ("tsh", "") ∧
    truthyOpt tshAuthObs.reference_range = some "0.4-4.5" ∧
    dictLookup (buildCache samplePages) ("tsh", "") = some "9-99" ∧
    (mergeDocument samplePages).map (fun t => t.reference_range) =
      [some "0.4-4.5", some "9-99"] :=
  ⟨by decide, by decide, by decide, by decide⟩

/-- C1 amended: once an extractor-supplied range is stored under a key,
the cache entry stays an extractor-supplied value — and the initial one
unless a later same-key observation supplies its own — PROVIDED no
later observation with that key both lacks an extractor range and has a
regex-recovered range for that key on its page; without that proviso a
later recovered range does overwrite the authoritative entry, as the
counterexample shows.  The second pass fills an observation with no
truthy range from the cache entry for its key, and passes observations
with a truthy range through unchanged. -/
theorem claim1_cache_amended :
    (∀ (pages : List (List TestDict × List ((String × String) × String)))
       (pre post : List (TestDict × List ((String × String) × String)))
       (t0 : TestDict) (rec0 : List ((String × String) × String)) (r0 : String),
       obsStream pages = pre ++ (t0, rec0) :: post →
       truthyOpt t0.reference_range = some r0 →
       (∀ tr ∈ post, keyOf tr.1 = keyOf t0 → truthyOpt tr.1.reference_range = none →
         dictLookup tr.2 (keyOf t0) = none) →
       ∃ r, dictLookup (buildCache pages) (keyOf t0) = some r ∧
         (r = r0 ∨ ∃ tr ∈ post, keyOf tr.1 = keyOf t0 ∧
            truthyOpt tr.1.reference_range = some r))
    ∧ (∀ (cache : List ((String × String) × String)) (t : TestDict) (r : String),
        truthyOpt t.reference_range = none → dictLookup cache (keyOf t) = some r →
        (fillObs cache t).reference_range = some r)
    ∧ (∀ (cache : List ((String × String) × String)) (t : TestDict) (r : String),
        truthyOpt t.reference_range = some r → fillObs cache t = t) := by
  refine ⟨?_, ?_, ?_⟩
  · intro pages pre post t0 rec0 r0 hsplit htr hH
    unfold buildCache
    rw [hsplit, List.foldl_append, List.foldl_cons]
    apply foldMerge_auth post _ _ r0
    · exact mergeObs_lookup_auth htr
    · exact hH
  · intro cache t r htr hlook
    unfold fillObs
    rw [htr, hlook]
  · intro cache t r htr
    unfold fillObs
    rw [htr]

/-- Witness for C1 amended: with a single authoritative observation and
nothing after it, the cache keeps the authoritative value, and the
second pass fills a rangeless observation from a cache entry. -/
theorem claim1_witness :
    obsStream [([tshAuthObs], [])] = [] ++ (tshAuthObs, []) :: [] ∧
    truthyOpt tshAuthObs.reference_range = some "0.4-4.5" ∧
    (∃ r, dictLookup (buildCache [([tshAuthObs], [])]) (keyOf tshAuthObs) = some r ∧
      (r = "0.4-4.5" ∨
        ∃ tr ∈ ([] : List (TestDict × List ((String × String) × String))),
          keyOf tr.1 = keyOf tshAuthObs ∧ truthyOpt tr.1.reference_range = some r)) ∧
    (fillObs [(("tsh", ""), "0.4-4.5")] tshPlainObs).reference_range = some "0.4-4.5" :=
  ⟨by decide, by decide,
    claim1_cache_amended.1 [([tshAuthObs], [])] [] [] tshAuthObs [] "0.4-4.5"
      (by decide) (by decide) (by intro tr htr; cases htr),
    claim1_cache_amended.2.1 [(("tsh", ""), "0.4-4.5")] tshPlainObs "0.4-4.5"
      (by decide) (by decide)⟩
